import Mathlib

/-
Verification of the sbus object-path registry and the InfoPipe users facet.

The definitions below are a shallow embedding of the C sources:
  * src/sbus/sssd_dbus_interface.c  (path utilities, interface registry,
    connection binding)
  * src/responder/ifp/ifp_users.c   (user-lookup facet)

Object paths are modelled as `List Char` (C strings), interface names as
`String`.  The dhash hash table is modelled as an association list; talloc
allocation is modelled as always succeeding (out-of-memory paths are not
reachable in the model).  Functions of external collaborators (libdbus,
ldb, the identity store) are modelled from the specification and marked
as such in their doc comments.
-/

/-- Error codes used by the C sources (errno.h values and sssd's own codes). -/
inductive Errno where
  | EOK
  | ENOMEM
  | EEXIST
  | EIO
  | EINVAL
  | ENOENT
  | ERR_INTERNAL
  | ERR_DOMAIN_NOT_FOUND
  deriving DecidableEq, Repr

/-- `struct sbus_interface_meta`: the declared name of an interface
(methods and properties are not needed by the registry claims). -/
structure sbus_interface_meta where
  name : String
  deriving DecidableEq, Repr

/-- `struct sbus_vtable`: carries the interface metadata. -/
structure sbus_vtable where
  meta : sbus_interface_meta
  deriving DecidableEq, Repr

/-- `struct sbus_interface` as built by `sbus_new_interface`:
object path, virtual table and opaque instance data (modelled as a token). -/
structure sbus_interface where
  path : List Char
  vtable : sbus_vtable
  instance_data : Nat
  deriving DecidableEq, Repr

/-- The registry hash table `conn->managed_paths`: a map from object-path
string to the interface list of that entry, modelled as an association list. -/
abbrev Registry := List (List Char × List sbus_interface)

/-- dhash `hash_lookup` on the registry. -/
def hash_lookup (table : Registry) (key : List Char) : Option (List sbus_interface) :=
  match table with
  | [] => none
  | (k, v) :: rest => if k = key then some v else hash_lookup rest key

/-- dhash `hash_enter`: replace the value stored at `key`, or append a new entry. -/
def hash_enter (table : Registry) (key : List Char) (value : List sbus_interface) : Registry :=
  match table with
  | [] => [(key, value)]
  | (k, v) :: rest =>
      if k = key then (k, value) :: rest else (k, v) :: hash_enter rest key value

/-- dhash `hash_delete`: remove the entry stored at `key` (entry removal also
runs the delete callback, which only touches the transport). -/
def hash_delete (table : Registry) (key : List Char) : Registry :=
  match table with
  | [] => []
  | (k, v) :: rest => if k = key then rest else (k, v) :: hash_delete rest key

/-- dhash `hash_has_key`, as used by `sbus_opath_hash_has_path`. -/
def hash_has_key (table : Registry) (key : List Char) : Bool :=
  (hash_lookup table key).isSome

/-- `sbus_opath_is_subtree`: true iff the path has length at least 2 and
ends in the two characters "/" "*". -/
def sbus_opath_is_subtree (path : List Char) : Bool :=
  let len := path.length
  if len < 2 then false
  else path.getD (len - 2) ' ' == '/' && path.getD (len - 1) ' ' == '*'

/-- `sbus_opath_get_base_path`: remove a trailing "/*"; the degenerate
subtree path "/*" becomes the root "/" (the C writes a slash back into
position 0 in that case).  Non-subtree paths are returned unchanged. -/
def sbus_opath_get_base_path (object_path : List Char) : List Char :=
  if sbus_opath_is_subtree object_path = false then object_path
  else
    let len := object_path.length
    if len - 2 = 0 then ['/']
    else object_path.take (len - 2)

/-- Index of the last slash in the string, i.e. C `strrchr(s, '/')`
expressed as an index. -/
def rindex_slash : List Char → Option Nat
  | [] => none
  | c :: rest =>
      match rindex_slash rest with
      | some i => some (i + 1)
      | none => if c = '/' then some 0 else none

/-- `sbus_opath_parent_subtree`: reduce to base form, stop at the root
(the C tests `subtree[1] == '\0'`, i.e. a one-character base), find the
last slash, refuse paths ending in a slash, and replace the final segment
with an asterisk.  (For a zero-length input the C reads past the string's
terminator; every object path starts with a slash, and the model returns
none through the `rindex_slash` branch in that case.) -/
def sbus_opath_parent_subtree (path : List Char) : Option (List Char) :=
  let subtree := sbus_opath_get_base_path path
  if subtree.length = 1 then none
  else
    match rindex_slash subtree with
    | none => none
    | some i =>
        if i = subtree.length - 1 then none
        else some (subtree.take (i + 1) ++ ['*'])

/-- n-fold iteration of `sbus_opath_parent_subtree`, with `none` absorbing:
the sequence p, parent(p), parent²(p), … of the specification. -/
def parent_subtree_iter : Nat → Option (List Char) → Option (List Char)
  | 0, s => s
  | n + 1, s =>
      parent_subtree_iter n
        (match s with
         | none => none
         | some p => sbus_opath_parent_subtree p)

/-- The chain p, parent(p), parent²(p), … as a list, bounded by `fuel`.
By theorem `c9_parent_walk_terminates` a fuel of (number of slashes + 1)
is always enough, so the cut-off never truncates the walk. -/
def subtree_chain_fuel : Nat → List Char → List (List Char)
  | 0, _ => []
  | n + 1, p =>
      p :: (match sbus_opath_parent_subtree p with
            | none => []
            | some q => subtree_chain_fuel n q)

/-- The full ancestor chain of a path: the path itself followed by every
ancestor subtree path, in nearest-first order. -/
def sbus_subtree_chain (p : List Char) : List (List Char) :=
  subtree_chain_fuel (p.count '/' + 1) p

/-- `sbus_iface_list_lookup`: first interface in the list whose
`vtable->meta->name` equals `iface` (strcmp == 0). -/
def sbus_iface_list_lookup (list : List sbus_interface) (iface : String) : Option sbus_interface :=
  list.find? (fun item => item.vtable.meta.name == iface)

/-- The loop of `sbus_iface_list_copy`: iterate the source list in order;
skip an item whose name is already in the copy being built; otherwise add
it with `DLIST_ADD`, which prepends to the head of the copy. -/
def sbus_iface_list_copy_loop : List sbus_interface → List sbus_interface → List sbus_interface
  | [], new_list => new_list
  | item :: rest, new_list =>
      if (sbus_iface_list_lookup new_list item.vtable.meta.name).isSome then
        sbus_iface_list_copy_loop rest new_list
      else
        sbus_iface_list_copy_loop rest (item :: new_list)

/-- `sbus_iface_list_copy`: copy one entry's interface list, skipping
duplicates by name within this one copy (a NULL source list copies to NULL). -/
def sbus_iface_list_copy (list : List sbus_interface) : List sbus_interface :=
  sbus_iface_list_copy_loop list []

/-- `sbus_opath_hash_add_iface`: returns (ret, new table, path_known).
If an entry exists and already holds the interface name, fail with EEXIST
and leave the table unchanged; if it exists without the name, append the
interface at the end of the entry's list (`DLIST_ADD_END`); otherwise
create a fresh single-element entry. -/
def sbus_opath_hash_add_iface (table : Registry) (object_path : List Char)
    (iface : sbus_interface) : Errno × Registry × Bool :=
  match hash_lookup table object_path with
  | some list =>
      match sbus_iface_list_lookup list iface.vtable.meta.name with
      | some _ => (Errno.EEXIST, table, true)
      | none => (Errno.EOK, hash_enter table object_path (list ++ [iface]), true)
  | none => (Errno.EOK, hash_enter table object_path [iface], false)

/-- The loop of `sbus_opath_hash_lookup_iface`: look the current path up in
the table; if the entry holds the interface name return it; otherwise step
to the parent subtree path and continue.  Fuel bounds the walk; by theorem
`c9_parent_walk_terminates`, (number of slashes + 1) is always enough. -/
def lookup_iface_loop : Nat → Registry → List Char → String → Option sbus_interface
  | 0, _, _, _ => none
  | n + 1, table, lookup_path, iface_name =>
      let cont :=
        match sbus_opath_parent_subtree lookup_path with
        | none => none
        | some q => lookup_iface_loop n table q iface_name
      match hash_lookup table lookup_path with
      | some list =>
          match sbus_iface_list_lookup list iface_name with
          | some iface => some iface
          | none => cont
      | none => cont

/-- `sbus_opath_hash_lookup_iface`: exact path first, then each ancestor
subtree path, first match wins. -/
def sbus_opath_hash_lookup_iface (table : Registry) (object_path : List Char)
    (iface_name : String) : Option sbus_interface :=
  lookup_iface_loop (object_path.count '/' + 1) table object_path iface_name

/-- The loop of `sbus_opath_hash_lookup_supported`: for every path in the
ancestor walk, copy the entry's interface list (`sbus_iface_list_copy`) and
append the copy at the end of the accumulated list (`DLIST_CONCATENATE`). -/
def lookup_supported_loop : Nat → Registry → List Char → List sbus_interface → List sbus_interface
  | 0, _, _, list => list
  | n + 1, table, lookup_path, list =>
      let list2 :=
        match hash_lookup table lookup_path with
        | some entry => list ++ sbus_iface_list_copy entry
        | none => list
      match sbus_opath_parent_subtree lookup_path with
      | none => list2
      | some q => lookup_supported_loop n table q list2

/-- `sbus_opath_hash_lookup_supported`: all interfaces supported on the
object path, collected along the ancestor walk. -/
def sbus_opath_hash_lookup_supported (table : Registry) (object_path : List Char) :
    List sbus_interface :=
  lookup_supported_loop (object_path.count '/' + 1) table object_path []

/-- One registration the transport (libdbus) holds: an object path or a
fallback (subtree) registration. -/
structure DBusReg where
  path : List Char
  fallback : Bool
  deriving DecidableEq, Repr

/-- The transport's registration table. -/
abbrev DBusConn := List DBusReg

/-- Modelled from the spec: `dbus_connection_unregister_object_path`
removes the transport registration at the given path. -/
def dbus_unregister (d : DBusConn) (p : List Char) : DBusConn :=
  d.filter (fun r => r.path ≠ p)

/-- Modelled from the spec: `dbus_connection_try_register_object_path`
fails with the ObjectPathInUse error when the path is already claimed,
otherwise records an object registration.  Returns (dbret, new state,
in-use error raised). -/
def dbus_try_register_object (d : DBusConn) (p : List Char) : Bool × DBusConn × Bool :=
  if (d.find? (fun r => r.path == p)).isSome then (false, d, true)
  else (true, d ++ [{ path := p, fallback := false }], false)

/-- Modelled from the spec: `dbus_connection_register_fallback` records a
subtree (fallback) registration, failing when the path is already claimed. -/
def dbus_register_fallback (d : DBusConn) (p : List Char) : Bool × DBusConn :=
  if (d.find? (fun r => r.path == p)).isSome then (false, d)
  else (true, d ++ [{ path := p, fallback := true }])

/-- `struct sbus_connection`, restricted to the registry and the
transport-side registrations. -/
structure ConnState where
  managed_paths : Registry
  dbus : DBusConn
  deriving DecidableEq, Repr

/-- `sbus_conn_register_path`: for a subtree path, register a fallback on
the base (unregistering an exact registration for the base first if the
registry knows that base); for a plain path, try an object registration
and swallow the ObjectPathInUse error.  Only the transport state changes. -/
def sbus_conn_register_path (st : ConnState) (path : List Char) : Errno × DBusConn :=
  if sbus_opath_is_subtree path then
    let reg_path := sbus_opath_get_base_path path
    let d1 := if hash_has_key st.managed_paths reg_path
              then dbus_unregister st.dbus reg_path
              else st.dbus
    match dbus_register_fallback d1 reg_path with
    | (dbret, d2) => if dbret then (Errno.EOK, d2) else (Errno.ENOMEM, d2)
  else
    match dbus_try_register_object st.dbus path with
    | (dbret, d1, in_use) =>
        if in_use then (Errno.EOK, st.dbus)
        else if dbret then (Errno.EOK, d1)
        else (Errno.ENOMEM, d1)

/-- Modelled from the spec: `sbus_introspect_vtable()` is the standard
introspection interface registered alongside every interface (data-model
invariant 4); only its `meta.name` matters here. -/
def introspect_vtable : sbus_vtable :=
  { meta := { name := "org.freedesktop.DBus.Introspectable" } }

/-- The body of `sbus_conn_register_iface` after its NULL checks: build the
interface record, insert it into the registry (freeing it again on error),
register the path with the transport when the path was not yet known, and
finally register the introspection interface at the same path.  The
recursion is bounded by an explicit fuel; a fuel of 2 is exact, because the
recursive call always finds the object path already in the registry and
returns without recursing again (theorem `register_iface_fuel_stable`). -/
def sbus_conn_register_iface_fuel : Nat → ConnState → sbus_vtable → List Char → Nat →
    Errno × ConnState
  | 0, st, _, _, _ => (Errno.ENOMEM, st)
  | fuel + 1, st, iface_vtable, object_path, pvt =>
      let iface : sbus_interface :=
        { path := object_path, vtable := iface_vtable, instance_data := pvt }
      match sbus_opath_hash_add_iface st.managed_paths object_path iface with
      | (ret, table2, path_known) =>
          if ret ≠ Errno.EOK then (ret, st)
          else if path_known then (Errno.EOK, { st with managed_paths := table2 })
          else
            let st1 : ConnState := { st with managed_paths := table2 }
            match sbus_conn_register_path st1 object_path with
            | (ret2, dbus2) =>
                if ret2 ≠ Errno.EOK then (ret2, { st1 with dbus := dbus2 })
                else
                  sbus_conn_register_iface_fuel fuel { st1 with dbus := dbus2 }
                    introspect_vtable object_path 0

/-- `sbus_conn_register_iface`: NULL connection, NULL vtable or NULL object
path yield EINVAL before anything is built or inserted. -/
def sbus_conn_register_iface (conn : Option ConnState) (iface_vtable : Option sbus_vtable)
    (object_path : Option (List Char)) (pvt : Nat) : Errno × Option ConnState :=
  match conn, iface_vtable, object_path with
  | some st, some vt, some p =>
      match sbus_conn_register_iface_fuel 2 st vt p pvt with
      | (e, st2) => (e, some st2)
  | _, _, _ => (Errno.EINVAL, conn)

/-- A registry operation: insertion, lookup (which does not mutate) or
entry removal. -/
inductive RegistryOp where
  | insert (path : List Char) (iface : sbus_interface)
  | lookup (path : List Char) (iface_name : String)
  | remove (path : List Char)

/-- Apply one registry operation to the registry state. -/
def registry_apply (t : Registry) : RegistryOp → Registry
  | RegistryOp.insert p i => (sbus_opath_hash_add_iface t p i).2.1
  | RegistryOp.lookup _ _ => t
  | RegistryOp.remove p => hash_delete t p

/-- Run a sequence of registry operations from the empty registry. -/
def registry_run (ops : List RegistryOp) : Registry :=
  ops.foldl registry_apply []

/-- The registry-uniqueness invariant: within any one entry's interface
list, no two interfaces share a `meta.name`. -/
def registry_names_unique (t : Registry) : Prop :=
  ∀ e ∈ t, ((e.2.map (fun i => i.vtable.meta.name)).Nodup)

/-- A character allowed inside an object-path segment (the bus
specification allows ASCII letters, digits and the underscore). -/
def seg_char (c : Char) : Bool :=
  c.isAlpha || c.isDigit || c == '_'

/-- No two adjacent characters are both slashes (no empty segment). -/
def no_double_slash : List Char → Bool
  | a :: b :: rest => !(a == '/' && b == '/') && no_double_slash (b :: rest)
  | _ => true

/-- A well-formed non-subtree object path per the data model: the root "/",
or a slash followed by non-empty segments of segment characters separated
by single slashes and not ending in a slash. -/
def wf_base : List Char → Bool
  | '/' :: body =>
      body.isEmpty ||
      (body.all (fun c => seg_char c || c == '/') &&
       !(body.head? == some '/') &&
       no_double_slash body &&
       !(body.getLast? == some '/'))
  | _ => false

/-- A well-formed object path per the data model: a well-formed base path,
or a subtree path whose base form is well-formed. -/
def sbus_opath_wellformed (p : List Char) : Bool :=
  if sbus_opath_is_subtree p then wf_base (sbus_opath_get_base_path p) else wf_base p

/-- `struct ldb_message`: a list of elements, each an attribute name with
its (string-rendered) values. -/
structure ldb_message where
  attrs : List (String × List String)
  deriving DecidableEq, Repr

/-- `ldb_msg_find_attr_as_string`: the first value of the named element,
or the default (NULL) when the element is missing or empty. -/
def ldb_msg_find_attr_as_string (msg : ldb_message) (attr : String) : Option String :=
  match msg.attrs.find? (fun a => a.1 == attr) with
  | some (_, v :: _) => some v
  | _ => none

/-- `ldb_msg_find_element`: the value list of the named element. -/
def ldb_msg_find_element (msg : ldb_message) (attr : String) : Option (List String) :=
  (msg.attrs.find? (fun a => a.1 == attr)).map (fun a => a.2)

/-- Modelled from the spec: `sss_view_ldb_msg_find_attr_as_string` is the
view-aware attribute lookup of the identity store (the store is opaque in
the spec); modelled as the plain attribute lookup. -/
def sss_view_ldb_msg_find_attr_as_string (msg : ldb_message) (attr : String) : Option String :=
  ldb_msg_find_attr_as_string msg attr

/-- Decimal parser over a character list (strtoull-style digit loop). -/
def parse_nat_loop : List Char → Nat → Option Nat
  | [], acc => some acc
  | c :: rest, acc =>
      if c.isDigit then parse_nat_loop rest (acc * 10 + (c.toNat - '0'.toNat))
      else none

/-- Parse a decimal string rendering of a number. -/
def parse_nat (s : String) : Option Nat :=
  if s.isEmpty then none else parse_nat_loop s.toList 0

/-- Modelled from the spec: `sss_view_ldb_msg_find_attr_as_uint64`, the
numeric variant of the view-aware lookup: parse the first value as a
number, or return the default. -/
def sss_view_ldb_msg_find_attr_as_uint64 (msg : ldb_message) (attr : String)
    (deflt : Nat) : Nat :=
  match ldb_msg_find_attr_as_string msg attr with
  | some s => (parse_nat s).getD deflt
  | none => deflt

def SYSDB_NAME : String := "name"
def SYSDB_UIDNUM : String := "uidNumber"
def SYSDB_GIDNUM : String := "gidNumber"
def SYSDB_GECOS : String := "gecos"
def SYSDB_HOMEDIR : String := "homeDirectory"
def SYSDB_SHELL : String := "loginShell"

/-- Modelled from the spec: the object-path prefixes for user and group
objects (`/Users/<domain>/<uid>`, `/Groups/<domain>/<gid>`). -/
def IFP_PATH_USERS : List Char := "/org/freedesktop/sssd/infopipe/Users".toList

/-- Modelled from the spec: the group-object path prefix. -/
def IFP_PATH_GROUPS : List Char := "/org/freedesktop/sssd/infopipe/Groups".toList

/-- Modelled from the spec: `sbus_opath_compose` joins a prefix with parts
to yield a well-formed object path. -/
def sbus_opath_compose (base : List Char) (parts : List String) : List Char :=
  parts.foldl (fun acc s => acc ++ '/' :: s.toList) base

/-- `ifp_users_build_path_from_msg`: read the uidNumber attribute from the
message (NULL when missing) and compose `IFP_PATH_USERS/<domain>/<uid>`. -/
def ifp_users_build_path_from_msg (domain : String) (msg : ldb_message) :
    Option (List Char) :=
  match ldb_msg_find_attr_as_string msg SYSDB_UIDNUM with
  | none => none
  | some uid => some (sbus_opath_compose IFP_PATH_USERS [domain, uid])

/-- Modelled from the spec: `ifp_groups_build_path_from_msg` composes
`IFP_PATH_GROUPS/<domain>/<gid>` from the message's gidNumber attribute
(the group facet source is not part of the excerpt). -/
def ifp_groups_build_path_from_msg (domain : String) (msg : ldb_message) :
    Option (List Char) :=
  match ldb_msg_find_attr_as_string msg SYSDB_GIDNUM with
  | none => none
  | some gid => some (sbus_opath_compose IFP_PATH_GROUPS [domain, gid])

/-- Modelled from the spec: the stable error names surfaced to clients
(only their distinctness matters to the claims). -/
def SBUS_ERROR_NOT_FOUND : String := "org.freedesktop.sssd.Error.NotFound"

/-- Modelled from the spec: the Internal error name. -/
def SBUS_ERROR_INTERNAL : String := "org.freedesktop.sssd.Error.Internal"

/-- Modelled from the spec: the generic Failed error name. -/
def DBUS_ERROR_FAILED : String := "org.freedesktop.DBus.Error.Failed"

/-- A structured D-Bus error as built by `sbus_error_new`. -/
structure DBusErrorMsg where
  name : String
  message : String
  deriving DecidableEq, Repr

/-- The terminal action a FindByName/FindByID continuation performs on its
request: `finish` (the typed `_finish` reply, whose object-path argument
the C may pass as NULL) or `fail_and_finish` with a structured error. -/
inductive IfpUserReply where
  | finish (object_path : Option (List Char))
  | fail_and_finish (error : DBusErrorMsg)
  deriving DecidableEq, Repr

/-- `ifp_users_find_by_name_done`, as a function of the cache-request
outcome (ret, result messages, domain).  Note the C control flow: on a
path-composition failure the error `SBUS_ERROR_INTERNAL` is built and
control jumps to `done`, but `ret` still holds EOK from the recv call, so
the `ret != EOK` branch is not taken and `FindByName_finish` runs with a
NULL object path; the built error is never sent. -/
def ifp_users_find_by_name_done (ret : Errno) (result : List ldb_message)
    (domain : String) : IfpUserReply :=
  if ret = Errno.ENOENT then
    IfpUserReply.fail_and_finish { name := SBUS_ERROR_NOT_FOUND, message := "User not found" }
  else if ret ≠ Errno.EOK then
    IfpUserReply.fail_and_finish { name := DBUS_ERROR_FAILED, message := "Failed to fetch user" }
  else
    match ifp_users_build_path_from_msg domain (result.headD { attrs := [] }) with
    | none => IfpUserReply.finish none
    | some object_path => IfpUserReply.finish (some object_path)

/-- `ifp_users_find_by_id_done`: same continuation shape as
`ifp_users_find_by_name_done`, keyed by numeric UID, with the same `ret`
control flow on path-composition failure. -/
def ifp_users_find_by_id_done (ret : Errno) (result : List ldb_message)
    (domain : String) : IfpUserReply :=
  if ret = Errno.ENOENT then
    IfpUserReply.fail_and_finish { name := SBUS_ERROR_NOT_FOUND, message := "User not found" }
  else if ret ≠ Errno.EOK then
    IfpUserReply.fail_and_finish { name := DBUS_ERROR_FAILED, message := "Failed to fetch user" }
  else
    match ifp_users_build_path_from_msg domain (result.headD { attrs := [] }) with
    | none => IfpUserReply.finish none
    | some object_path => IfpUserReply.finish (some object_path)

/-- The environment a per-user property getter runs in: the access-control
predicate `ifp_is_user_attr_allowed`, the outcome of the path-to-entity
resolution `ifp_users_user_get` (return code, domain name and user
message), the outcome of the initgroups query, the configured extra
attribute names (`ifp_get_user_extra_attributes`) and the outcome of the
projected `sysdb_search_entry` query. -/
structure ifp_user_world where
  allowed : String → Bool
  user_get_ret : Errno
  user_domain : String
  user_msg : ldb_message
  initgr_ret : Errno
  initgr_res : List ldb_message
  extra_attrs : List String
  search_ret : Errno
  search_res : List ldb_message

/-- `ifp_users_get_as_string`: NULL out-parameter, then the allowed check,
then the user lookup, then the view-aware attribute read. -/
def ifp_users_get_as_string (w : ifp_user_world) (attr : String) : Option String :=
  if !w.allowed attr then none
  else if w.user_get_ret ≠ Errno.EOK then none
  else sss_view_ldb_msg_find_attr_as_string w.user_msg attr

/-- `ifp_users_get_as_uint32`: zero out-parameter, then the allowed check,
then the user lookup, then the numeric view-aware read truncated to
uint32. -/
def ifp_users_get_as_uint32 (w : ifp_user_world) (attr : String) : Nat :=
  if !w.allowed attr then 0
  else if w.user_get_ret ≠ Errno.EOK then 0
  else (sss_view_ldb_msg_find_attr_as_uint64 w.user_msg attr 0) % 2 ^ 32

/-- `ifp_users_user_get_name`. -/
def ifp_users_user_get_name (w : ifp_user_world) : Option String :=
  ifp_users_get_as_string w SYSDB_NAME

/-- `ifp_users_user_get_uid_number`. -/
def ifp_users_user_get_uid_number (w : ifp_user_world) : Nat :=
  ifp_users_get_as_uint32 w SYSDB_UIDNUM

/-- `ifp_users_user_get_gid_number`. -/
def ifp_users_user_get_gid_number (w : ifp_user_world) : Nat :=
  ifp_users_get_as_uint32 w SYSDB_GIDNUM

/-- `ifp_users_user_get_gecos`. -/
def ifp_users_user_get_gecos (w : ifp_user_world) : Option String :=
  ifp_users_get_as_string w SYSDB_GECOS

/-- `ifp_users_user_get_home_directory`. -/
def ifp_users_user_get_home_directory (w : ifp_user_world) : Option String :=
  ifp_users_get_as_string w SYSDB_HOMEDIR

/-- `ifp_users_user_get_login_shell`. -/
def ifp_users_user_get_login_shell (w : ifp_user_world) : Option String :=
  ifp_users_get_as_string w SYSDB_SHELL

/-- The loop of `ifp_users_user_get_groups`: walk the initgroups result
with index `i`; skip entries whose gid is 0; otherwise build the group
object path and store it at `out[i]` (the original result index) while
counting accepted entries in `num_groups`.  A path-build failure returns
with NULL out-parameters. -/
def ifp_groups_loop (domain : String) :
    List ldb_message → List (Option (List Char)) → Nat → Nat →
    Option (List (Option (List Char))) × Nat
  | [], out, _, num_groups => (some out, num_groups)
  | msg :: rest, out, i, num_groups =>
      let gid := (sss_view_ldb_msg_find_attr_as_uint64 msg SYSDB_GIDNUM 0) % 2 ^ 32
      if gid = 0 then ifp_groups_loop domain rest out (i + 1) num_groups
      else
        match ifp_groups_build_path_from_msg domain msg with
        | none => (none, 0)
        | some path => ifp_groups_loop domain rest (out.set i (some path)) (i + 1) (num_groups + 1)

/-- `ifp_users_user_get_groups`: allowed check on "groups", user lookup,
username read, initgroups query, then a `talloc_zero_array` of the result
count (all NULL) filled by `ifp_groups_loop`; the out-parameters are the
array (NULL on any early return) and `num_groups`. -/
def ifp_users_user_get_groups (w : ifp_user_world) :
    Option (List (Option (List Char))) × Nat :=
  if !w.allowed "groups" then (none, 0)
  else if w.user_get_ret ≠ Errno.EOK then (none, 0)
  else
    match ldb_msg_find_attr_as_string w.user_msg SYSDB_NAME with
    | none => (none, 0)
    | some _ =>
        if w.initgr_ret ≠ Errno.EOK then (none, 0)
        else if w.initgr_res.length = 0 then (none, 0)
        else
          ifp_groups_loop w.user_domain w.initgr_res
            (List.replicate w.initgr_res.length none) 0 0

/-- The loop of `ifp_users_user_get_extra_attributes`: for each configured
extra attribute, read its element from the found entry (skipping missing
ones) and insert (name, values) into the result table, modelled as a list
in insertion order. -/
def ifp_extra_loop : List String → ldb_message → List (String × List String)
  | [], _ => []
  | a :: rest, user =>
      match ldb_msg_find_element user a with
      | none => ifp_extra_loop rest user
      | some values => (a, values) :: ifp_extra_loop rest user

/-- `ifp_users_user_get_extra_attributes`: NULL out-parameter; return
early when no extra attributes are configured, when the user lookup
fails, or when the projected search does not return exactly one entry;
otherwise build the attribute table.  Note: unlike the other getters,
this function never consults `ifp_is_user_attr_allowed`. -/
def ifp_users_user_get_extra_attributes (w : ifp_user_world) :
    Option (List (String × List String)) :=
  if w.extra_attrs.isEmpty then none
  else if w.user_get_ret ≠ Errno.EOK then none
  else if w.search_ret ≠ Errno.EOK then none
  else if w.search_res.length = 0 then none
  else if 1 < w.search_res.length then none
  else some (ifp_extra_loop w.extra_attrs (w.search_res.headD { attrs := [] }))

/-- Dedup helper for the claim's reading of lookup_supported: keep the
first occurrence of every `meta.name`, preserving order otherwise. -/
def dedup_by_name_aux : List sbus_interface → List String → List sbus_interface
  | [], _ => []
  | i :: rest, seen =>
      if i.vtable.meta.name ∈ seen then dedup_by_name_aux rest seen
      else i :: dedup_by_name_aux rest (i.vtable.meta.name :: seen)

/-- The claim's description of `lookup_supported` (not the code's): the
union, in ancestor order, of every interface registered on the path or an
ancestor subtree, with duplicates by `meta.name` removed keeping the
first (nearest) occurrence and insertion order preserved within any
single entry. -/
def claimed_lookup_supported (table : Registry) (object_path : List Char) :
    List sbus_interface :=
  dedup_by_name_aux
    ((sbus_subtree_chain object_path).flatMap (fun q => (hash_lookup table q).getD []))
    []

/-- Concrete interface "I" registered at /a (first registration). -/
def c1_iface_exact : sbus_interface :=
  { path := "/a".toList, vtable := { meta := { name := "I" } }, instance_data := 1 }

/-- Concrete interface "J" registered at /a after "I". -/
def c1_iface_second : sbus_interface :=
  { path := "/a".toList, vtable := { meta := { name := "J" } }, instance_data := 2 }

/-- Concrete interface "I" registered again on the root subtree. -/
def c1_iface_sub : sbus_interface :=
  { path := "/*".toList, vtable := { meta := { name := "I" } }, instance_data := 3 }

/-- Registry reached from empty by inserting "I" then "J" at /a and "I" at
the root subtree (all three insertions succeed). -/
def c1_table : Registry :=
  (sbus_opath_hash_add_iface
    ((sbus_opath_hash_add_iface
      ((sbus_opath_hash_add_iface [] ("/a".toList) c1_iface_exact).2.1)
      ("/a".toList) c1_iface_second).2.1)
    ("/*".toList) c1_iface_sub).2.1

/-- A user message without a uidNumber attribute: the store query succeeds
but `ifp_users_build_path_from_msg` returns NULL on it. -/
def c2_msg_no_uid : ldb_message := { attrs := [("name", ["alice"])] }

/-- A getter environment whose access-control predicate denies every
attribute, while an extra attribute "phone" is configured and present. -/
def c3_world : ifp_user_world :=
  { allowed := fun _ => false
    user_get_ret := Errno.EOK
    user_domain := "dom"
    user_msg := { attrs := [("name", ["alice"])] }
    initgr_ret := Errno.EOK
    initgr_res := []
    extra_attrs := ["phone"]
    search_ret := Errno.EOK
    search_res := [{ attrs := [("phone", ["123"])] }] }

/-- An initgroups result entry with gid 0 (to be ignored). -/
def c4_msg_gid0 : ldb_message := { attrs := [("gidNumber", ["0"])] }

/-- An initgroups result entry with gid 5. -/
def c4_msg_gid5 : ldb_message := { attrs := [("gidNumber", ["5"])] }

/-- A getter environment whose initgroups query returns a gid-0 entry
followed by a gid-5 entry. -/
def c4_world : ifp_user_world :=
  { allowed := fun _ => true
    user_get_ret := Errno.EOK
    user_domain := "dom"
    user_msg := { attrs := [("name", ["alice"])] }
    initgr_ret := Errno.EOK
    initgr_res := [c4_msg_gid0, c4_msg_gid5]
    extra_attrs := []
    search_ret := Errno.EOK
    search_res := [] }

/-- Interface "K" registered exactly at /a/b. -/
def c5_iface_exact : sbus_interface :=
  { path := "/a/b".toList, vtable := { meta := { name := "K" } }, instance_data := 10 }

/-- The same interface name "K" registered at the ancestor subtree /a/~*. -/
def c5_iface_sub : sbus_interface :=
  { path := "/a/*".toList, vtable := { meta := { name := "K" } }, instance_data := 11 }

/-- Registry with "K" at both /a/b and /a/~*. -/
def c5_table : Registry :=
  [("/a/b".toList, [c5_iface_exact]), ("/a/*".toList, [c5_iface_sub])]

/-- The virtual table being registered a second time in the C6 scenario. -/
def c6_vt : sbus_vtable := { meta := { name := "IfaceC6" } }

/-- The interface record created by the first (successful) registration. -/
def c6_iface : sbus_interface :=
  { path := "/c".toList, vtable := c6_vt, instance_data := 5 }

/-- Connection state after the first registration of `c6_vt` at /c. -/
def c6_st : ConnState :=
  { managed_paths := [("/c".toList, [c6_iface])]
    dbus := [{ path := "/c".toList, fallback := false }] }

/-- A concrete operation sequence exercising insert, lookup and removal. -/
def c7_ops : List RegistryOp :=
  [RegistryOp.insert ("/a".toList) c1_iface_exact,
   RegistryOp.insert ("/a".toList) c1_iface_second,
   RegistryOp.insert ("/a".toList) c1_iface_exact,
   RegistryOp.lookup ("/a".toList) "I",
   RegistryOp.insert ("/*".toList) c1_iface_sub,
   RegistryOp.remove ("/a".toList)]

theorem getD_drop_eq (l : List Char) (i j : Nat) :
    (l.drop i).getD j ' ' = l.getD (i + j) ' ' := by
  induction l generalizing i j with
  | nil => simp
  | cons c rest ih =>
      cases i with
      | zero => simp
      | succ i2 =>
          rw [List.drop_succ_cons, ih,
              show i2 + 1 + j = (i2 + j) + 1 by omega, List.getD_cons_succ]

theorem is_subtree_cons (c : Char) (xs : List Char) (h : 2 ≤ xs.length) :
    sbus_opath_is_subtree (c :: xs) = sbus_opath_is_subtree xs := by
  simp only [sbus_opath_is_subtree, List.length_cons]
  rw [if_neg (by omega), if_neg (by omega)]
  rw [show xs.length + 1 - 2 = (xs.length - 2) + 1 by omega]
  rw [show xs.length + 1 - 1 = (xs.length - 1) + 1 by omega]
  rw [List.getD_cons_succ, List.getD_cons_succ]

theorem is_subtree_append_marker (q : List Char) :
    sbus_opath_is_subtree (q ++ ['/', '*']) = true := by
  induction q with
  | nil => decide
  | cons c rest ih =>
      rw [List.cons_append, is_subtree_cons c _ (by simp)]
      exact ih

theorem is_subtree_iff (p : List Char) :
    sbus_opath_is_subtree p = true ↔ ∃ q, p = q ++ ['/', '*'] := by
  constructor
  · intro h
    simp only [sbus_opath_is_subtree] at h
    by_cases hlen : p.length < 2
    · rw [if_pos hlen] at h; exact absurd h (by simp)
    rw [if_neg hlen] at h
    push_neg at hlen
    simp only [Bool.and_eq_true, beq_iff_eq] at h
    have hdl : (p.drop (p.length - 2)).length = 2 := by rw [List.length_drop]; omega
    obtain ⟨a, b, hab⟩ := List.length_eq_two.mp hdl
    have ha : p.getD (p.length - 2) ' ' = a := by
      have hx := getD_drop_eq p (p.length - 2) 0
      rw [hab] at hx
      simpa using hx.symm
    have hb : p.getD (p.length - 1) ' ' = b := by
      have hx := getD_drop_eq p (p.length - 2) 1
      rw [hab, show p.length - 2 + 1 = p.length - 1 by omega] at hx
      simpa using hx.symm
    have ha2 : a = '/' := by rw [← ha, h.1]
    have hb2 : b = '*' := by rw [← hb, h.2]
    refine ⟨p.take (p.length - 2), ?_⟩
    have hp := (List.take_append_drop (p.length - 2) p).symm
    rw [hab, ha2, hb2] at hp
    exact hp
  · rintro ⟨q, rfl⟩
    exact is_subtree_append_marker q

theorem base_path_of_marker (q : List Char) :
    sbus_opath_get_base_path (q ++ ['/', '*']) = if q.isEmpty then ['/'] else q := by
  cases q with
  | nil => decide
  | cons c rest =>
      have hsub := is_subtree_append_marker (c :: rest)
      have h2 : ((c :: rest) ++ ['/', '*']).length - 2 = (c :: rest).length := by simp
      simp only [sbus_opath_get_base_path]
      rw [if_neg (by rw [hsub]; simp), h2]
      rw [if_neg (by simp), List.take_left]
      simp

theorem base_path_not_subtree (p : List Char) (h : sbus_opath_is_subtree p = false) :
    sbus_opath_get_base_path p = p := by
  simp [sbus_opath_get_base_path, h]

theorem rindex_slash_none (s : List Char) (h : rindex_slash s = none) :
    s.count '/' = 0 := by
  induction s with
  | nil => rfl
  | cons c rest ih =>
      simp only [rindex_slash] at h
      cases hr : rindex_slash rest with
      | some i => rw [hr] at h; exact absurd h (by simp)
      | none =>
          rw [hr] at h
          by_cases hc : c = '/'
          · rw [if_pos hc] at h; exact absurd h (by simp)
          · rw [if_neg hc] at h
            rw [List.count_cons]
            rw [ih hr]
            simp [hc]

theorem rindex_slash_some (s : List Char) (i : Nat) (h : rindex_slash s = some i) :
    i < s.length ∧ s.getD i ' ' = '/' ∧ (s.drop (i + 1)).count '/' = 0 := by
  induction s generalizing i with
  | nil => exact absurd h (by simp [rindex_slash])
  | cons c rest ih =>
      simp only [rindex_slash] at h
      cases hr : rindex_slash rest with
      | some j =>
          rw [hr] at h
          have hij : i = j + 1 := by
            have := h
            simp at this
            omega
          subst hij
          obtain ⟨h1, h2, h3⟩ := ih j hr
          refine ⟨by simp; omega, ?_, ?_⟩
          · rw [List.getD_cons_succ]; exact h2
          · rw [List.drop_succ_cons]; exact h3
      | none =>
          rw [hr] at h
          by_cases hc : c = '/'
          · rw [if_pos hc] at h
            have hi0 : i = 0 := by
              have := h
              simp at this
              omega
            subst hi0
            refine ⟨by simp, by simp [hc], ?_⟩
            rw [List.drop_succ_cons, List.drop_zero]
            exact rindex_slash_none rest hr
          · rw [if_neg hc] at h
            exact absurd h (by simp)

theorem count_take_rindex (s : List Char) (i : Nat) (h : rindex_slash s = some i) :
    (s.take (i + 1)).count '/' = s.count '/' := by
  obtain ⟨h1, h2, h3⟩ := rindex_slash_some s i h
  have hc := List.count_append '/' (s.take (i + 1)) (s.drop (i + 1))
  rw [List.take_append_drop] at hc
  omega

theorem take_rindex_marker (s : List Char) (i : Nat) (h : rindex_slash s = some i) :
    s.take (i + 1) = s.take i ++ ['/'] := by
  obtain ⟨h1, h2, _⟩ := rindex_slash_some s i h
  rw [List.take_succ]
  have hx : s[i]? = some '/' := by
    rw [List.getElem?_eq_getElem h1]
    have hy := List.getD_eq_getElem?_getD s i ' '
    rw [List.getElem?_eq_getElem h1] at hy
    simp only [Option.getD_some] at hy
    rw [← hy, h2]
  rw [hx]
  rfl

theorem parent_subtree_step (p q : List Char) (h : sbus_opath_parent_subtree p = some q) :
    sbus_opath_is_subtree q = true ∧
    q.count '/' + (if sbus_opath_is_subtree p then 1 else 0) = p.count '/' := by
  simp only [sbus_opath_parent_subtree] at h
  split at h
  · exact absurd h (by simp)
  next hb1 =>
    split at h
    · exact absurd h (by simp)
    next i hr =>
      split at h
      · exact absurd h (by simp)
      next hi =>
        have hq : q = (sbus_opath_get_base_path p).take (i + 1) ++ ['*'] := by
          simpa using h.symm
        have hmark := take_rindex_marker _ i hr
        constructor
        · rw [hq, hmark, List.append_assoc]
          exact is_subtree_append_marker _
        · have hcq : q.count '/' = (sbus_opath_get_base_path p).count '/' := by
            rw [hq, List.count_append, count_take_rindex _ i hr]
            simp
          rw [hcq]
          by_cases hsub : sbus_opath_is_subtree p = true
          · obtain ⟨r, hrq⟩ := (is_subtree_iff p).mp hsub
            cases r with
            | nil =>
                exfalso
                have hbp : sbus_opath_get_base_path p = ['/'] := by
                  rw [hrq, base_path_of_marker]; rfl
                rw [hbp] at hb1
                simp at hb1
            | cons c rest =>
                have hbp : sbus_opath_get_base_path p = c :: rest := by
                  rw [hrq, base_path_of_marker (c :: rest), if_neg (by simp)]
                rw [hbp, hsub, if_pos rfl, hrq, List.count_append]
                simp
          · have hsf : sbus_opath_is_subtree p = false := by
              cases hx : sbus_opath_is_subtree p
              · rfl
              · exact absurd hx hsub
            rw [base_path_not_subtree p hsf, hsf]
            simp

theorem parent_subtree_iter_none (n : Nat) : parent_subtree_iter n none = none := by
  induction n with
  | zero => rfl
  | succ m ih => simpa [parent_subtree_iter] using ih

theorem parent_subtree_iter_succ_some (n : Nat) (p : List Char) :
    parent_subtree_iter (n + 1) (some p) =
      parent_subtree_iter n (sbus_opath_parent_subtree p) := rfl

theorem subtree_count_pos (p : List Char) (h : sbus_opath_is_subtree p = true) :
    1 ≤ p.count '/' := by
  obtain ⟨q, rfl⟩ := (is_subtree_iff p).mp h
  rw [List.count_append]
  simp

theorem subtree_iter_of_le (k : Nat) :
    ∀ p : List Char, sbus_opath_is_subtree p = true → p.count '/' ≤ k →
      parent_subtree_iter k (some p) = none := by
  induction k with
  | zero =>
      intro p hsub hle
      exact absurd hle (by have := subtree_count_pos p hsub; omega)
  | succ m ih =>
      intro p hsub hle
      rw [parent_subtree_iter_succ_some]
      cases hp : sbus_opath_parent_subtree p with
      | none => exact parent_subtree_iter_none m
      | some q =>
          obtain ⟨hq1, hq2⟩ := parent_subtree_step p q hp
          rw [hsub, if_pos rfl] at hq2
          exact ih q hq1 (by omega)

/-- Claim C9: for every path, iterating `sbus_opath_parent_subtree` starting
from the path reaches "none" after at most (number of slash characters + 1)
steps: the parent walk terminates within the claimed bound (proved for every
character string, in particular for every valid object path). -/
theorem c9_parent_walk_terminates (p : List Char) :
    parent_subtree_iter (p.count '/' + 1) (some p) = none := by
  rw [parent_subtree_iter_succ_some]
  cases hp : sbus_opath_parent_subtree p with
  | none => exact parent_subtree_iter_none _
  | some q =>
      obtain ⟨hq1, hq2⟩ := parent_subtree_step p q hp
      refine subtree_iter_of_le _ q hq1 ?_
      by_cases hsub : sbus_opath_is_subtree p = true
      · rw [hsub, if_pos rfl] at hq2; omega
      · have hsf : sbus_opath_is_subtree p = false := by
          cases hx : sbus_opath_is_subtree p
          · rfl
          · exact absurd hx hsub
        rw [hsf] at hq2
        simp at hq2
        omega

theorem lookup_iface_loop_eq_findSome (n : Nat) :
    ∀ (t : Registry) (p : List Char) (name : String),
      lookup_iface_loop n t p name =
        (subtree_chain_fuel n p).findSome?
          (fun q => (hash_lookup t q).bind (fun l => sbus_iface_list_lookup l name)) := by
  induction n with
  | zero => intro t p name; rfl
  | succ m ih =>
      intro t p name
      simp only [lookup_iface_loop, subtree_chain_fuel, List.findSome?_cons]
      cases hl : hash_lookup t p with
      | some list =>
          cases hf : sbus_iface_list_lookup list name with
          | some iface =>
              simp only [Option.some_bind, hf]
          | none =>
              simp only [Option.some_bind, hf]
              cases hp : sbus_opath_parent_subtree p with
              | none => rfl
              | some q => exact ih t q name
      | none =>
          simp only [Option.none_bind]
          cases hp : sbus_opath_parent_subtree p with
          | none => rfl
          | some q => exact ih t q name

theorem lookup_supported_loop_eq_flatMap (n : Nat) :
    ∀ (t : Registry) (p : List Char) (acc : List sbus_interface),
      lookup_supported_loop n t p acc =
        acc ++ (subtree_chain_fuel n p).flatMap
          (fun q => sbus_iface_list_copy ((hash_lookup t q).getD [])) := by
  induction n with
  | zero => intro t p acc; simp [lookup_supported_loop, subtree_chain_fuel]
  | succ m ih =>
      intro t p acc
      simp only [lookup_supported_loop, subtree_chain_fuel, List.flatMap_cons]
      cases hl : hash_lookup t p with
      | some entry =>
          simp only [Option.getD_some]
          cases hp : sbus_opath_parent_subtree p with
          | none => simp
          | some q => dsimp only; rw [ih t q]; simp [List.append_assoc]
      | none =>
          simp only [Option.getD_none]
          cases hp : sbus_opath_parent_subtree p with
          | none => simp [sbus_iface_list_copy, sbus_iface_list_copy_loop]
          | some q =>
              dsimp only
              rw [ih t q]
              simp [sbus_iface_list_copy, sbus_iface_list_copy_loop]

theorem iface_list_lookup_eq_none_iff (l : List sbus_interface) (name : String) :
    sbus_iface_list_lookup l name = none ↔ ∀ i ∈ l, i.vtable.meta.name ≠ name := by
  simp [sbus_iface_list_lookup, List.find?_eq_none]

theorem iface_list_copy_loop_reverse (l : List sbus_interface) :
    ∀ acc : List sbus_interface,
      (l.map (fun i => i.vtable.meta.name)).Nodup →
      (∀ i ∈ l, sbus_iface_list_lookup acc i.vtable.meta.name = none) →
      sbus_iface_list_copy_loop l acc = l.reverse ++ acc := by
  induction l with
  | nil => intro acc _ _; simp [sbus_iface_list_copy_loop]
  | cons i rest ih =>
      intro acc hnd hacc
      have hai : sbus_iface_list_lookup acc i.vtable.meta.name = none :=
        hacc i (by simp)
      simp only [sbus_iface_list_copy_loop, hai, Option.isSome_none, Bool.false_eq_true,
        if_neg]
      rw [ih (i :: acc) ?_ ?_]
      · simp
      · simp only [List.map_cons, List.nodup_cons] at hnd
        exact hnd.2
      · intro j hj
        have hne : j.vtable.meta.name ≠ i.vtable.meta.name := by
          simp only [List.map_cons, List.nodup_cons] at hnd
          intro he
          exact hnd.1 (he ▸ List.mem_map_of_mem (fun x => x.vtable.meta.name) hj)
        rw [iface_list_lookup_eq_none_iff]
        intro x hx
        rcases List.mem_cons.mp hx with h1 | h2
        · rw [h1]; exact hne.symm
        · exact (iface_list_lookup_eq_none_iff acc j.vtable.meta.name).mp
            (hacc j (by simp [hj])) x h2

/-- Claim C5: `lookup_iface` tries the exact path first and then each
ancestor subtree path in order, returning the first match (it equals the
first hit along the ancestor chain); in particular, when the interface
name is registered directly at the path, that registration is returned
(nearest wins). -/
theorem c5_lookup_iface_nearest_wins :
    ∀ (t : Registry) (p : List Char) (name : String),
      (sbus_opath_hash_lookup_iface t p name =
        (sbus_subtree_chain p).findSome?
          (fun q => (hash_lookup t q).bind (fun l => sbus_iface_list_lookup l name))) ∧
      (∀ (l : List sbus_interface) (iface : sbus_interface),
        hash_lookup t p = some l → sbus_iface_list_lookup l name = some iface →
          sbus_opath_hash_lookup_iface t p name = some iface) := by
  intro t p name
  constructor
  · exact lookup_iface_loop_eq_findSome _ t p name
  · intro l iface h1 h2
    simp only [sbus_opath_hash_lookup_iface, lookup_iface_loop, h1, h2]

/-- Witness for claim C5: with "K" registered at both /a/b and /a/~*, the
lookup on /a/b returns the registration at /a/b. -/
theorem c5_witness :
    hash_lookup c5_table ("/a/b".toList) = some [c5_iface_exact] ∧
    sbus_iface_list_lookup [c5_iface_exact] "K" = some c5_iface_exact ∧
    hash_lookup c5_table ("/a/*".toList) = some [c5_iface_sub] ∧
    sbus_opath_hash_lookup_iface c5_table ("/a/b".toList) "K" = some c5_iface_exact := by
  refine ⟨by decide, by decide, by decide, ?_⟩
  exact (c5_lookup_iface_nearest_wins c5_table ("/a/b".toList) "K").2
    [c5_iface_exact] c5_iface_exact (by decide) (by decide)

/-- Counterexample for claim C1 as stated: in the reachable registry
`c1_table` (interfaces "I" then "J" inserted at /a, and "I" again at the
root subtree), the value computed by the code differs from the claim's
union with duplicates-by-name removed and per-entry insertion order
preserved: the code returns ["J","I","I"] (each entry's contribution is
reversed and the cross-entry duplicate "I" is kept). -/
theorem c1_counterexample :
    sbus_opath_hash_lookup_supported c1_table ("/a".toList) ≠
      claimed_lookup_supported c1_table ("/a".toList) := by decide

/-- Claim C1 (amended): `lookup_supported` returns the concatenation, in
ancestor order, of each matching entry's interface list copied by
`sbus_iface_list_copy`; the copy removes duplicates only within the one
entry and reverses the entry's insertion order — for an entry whose names
are unique (every reachable entry) the contribution is exactly the
reversed insertion order — and duplicates across different entries are
kept. -/
theorem c1_lookup_supported_amended :
    ∀ (t : Registry) (p : List Char) (l : List sbus_interface),
      (sbus_opath_hash_lookup_supported t p =
        (sbus_subtree_chain p).flatMap
          (fun q => sbus_iface_list_copy ((hash_lookup t q).getD []))) ∧
      ((l.map (fun i => i.vtable.meta.name)).Nodup →
        sbus_iface_list_copy l = l.reverse) := by
  intro t p l
  constructor
  · have h := lookup_supported_loop_eq_flatMap (p.count '/' + 1) t p []
    simpa [sbus_opath_hash_lookup_supported, sbus_subtree_chain] using h
  · intro hnd
    rw [sbus_iface_list_copy,
        iface_list_copy_loop_reverse l [] hnd (by intro i _; rfl)]
    simp

/-- Witness for the amended claim C1, on the concrete registry `c1_table`. -/
theorem c1_witness :
    (sbus_opath_hash_lookup_supported c1_table ("/a".toList) =
      (sbus_subtree_chain ("/a".toList)).flatMap
        (fun q => sbus_iface_list_copy ((hash_lookup c1_table q).getD []))) ∧
    sbus_iface_list_copy [c1_iface_exact, c1_iface_second] =
      [c1_iface_exact, c1_iface_second].reverse := by
  exact ⟨(c1_lookup_supported_amended c1_table ("/a".toList)
            [c1_iface_exact, c1_iface_second]).1,
         (c1_lookup_supported_amended c1_table ("/a".toList)
            [c1_iface_exact, c1_iface_second]).2 (by decide)⟩

theorem hash_enter_mem (t : Registry) (k : List Char) (v : List sbus_interface) :
    ∀ e ∈ hash_enter t k v, e.2 = v ∨ e ∈ t := by
  induction t with
  | nil =>
      intro e he
      simp only [hash_enter, List.mem_singleton] at he
      left; rw [he]
  | cons kv rest ih =>
      intro e he
      obtain ⟨k2, v2⟩ := kv
      simp only [hash_enter] at he
      by_cases hk : k2 = k
      · rw [if_pos hk] at he
        rcases List.mem_cons.mp he with h1 | h2
        · left; rw [h1]
        · right; exact List.mem_cons_of_mem _ h2
      · rw [if_neg hk] at he
        rcases List.mem_cons.mp he with h1 | h2
        · right; rw [h1]; exact List.mem_cons_self _ _
        · rcases ih e h2 with h3 | h4
          · left; exact h3
          · right; exact List.mem_cons_of_mem _ h4

theorem hash_delete_mem (t : Registry) (k : List Char) :
    ∀ e ∈ hash_delete t k, e ∈ t := by
  induction t with
  | nil => intro e he; exact absurd he (by simp [hash_delete])
  | cons kv rest ih =>
      intro e he
      obtain ⟨k2, v2⟩ := kv
      simp only [hash_delete] at he
      by_cases hk : k2 = k
      · rw [if_pos hk] at he
        exact List.mem_cons_of_mem _ he
      · rw [if_neg hk] at he
        rcases List.mem_cons.mp he with h1 | h2
        · rw [h1]; exact List.mem_cons_self _ _
        · exact List.mem_cons_of_mem _ (ih e h2)

theorem hash_lookup_mem (t : Registry) (k : List Char) (v : List sbus_interface)
    (h : hash_lookup t k = some v) : (k, v) ∈ t := by
  induction t with
  | nil => exact absurd h (by simp [hash_lookup])
  | cons kv rest ih =>
      obtain ⟨k2, v2⟩ := kv
      simp only [hash_lookup] at h
      by_cases hk : k2 = k
      · rw [if_pos hk] at h
        have hv : v2 = v := by simpa using h
        rw [← hk, ← hv]
        exact List.mem_cons_self _ _
      · rw [if_neg hk] at h
        exact List.mem_cons_of_mem _ (ih h)

theorem registry_apply_preserves_unique (t : Registry) (op : RegistryOp)
    (h : registry_names_unique t) : registry_names_unique (registry_apply t op) := by
  cases op with
  | lookup p name => exact h
  | remove p =>
      intro e he
      exact h e (hash_delete_mem t p e he)
  | insert p i =>
      simp only [registry_apply, sbus_opath_hash_add_iface]
      cases hl : hash_lookup t p with
      | none =>
          dsimp only
          intro e he
          rcases hash_enter_mem t p [i] e he with h1 | h2
          · rw [h1]; simp
          · exact h e h2
      | some list =>
          cases hf : sbus_iface_list_lookup list i.vtable.meta.name with
          | some j => simp only [hf]; exact h
          | none =>
              simp only [hf]
              intro e he
              rcases hash_enter_mem t p (list ++ [i]) e he with h1 | h2
              · rw [h1]
                rw [List.map_append, List.nodup_append]
                refine ⟨h (p, list) (hash_lookup_mem t p list hl), by simp, ?_⟩
                intro a ha hb
                have hai : a = i.vtable.meta.name := by simpa using hb
                obtain ⟨x, hx1, hx2⟩ := List.mem_map.mp ha
                have hxne := (iface_list_lookup_eq_none_iff list i.vtable.meta.name).mp hf x hx1
                exact hxne (hx2.trans hai)
              · exact h e h2

/-- Claim C7: starting from the empty registry, every sequence of registry
operations (insert, lookup, removal) leads to a state in which no entry's
interface list holds two interfaces with the same `meta.name`. -/
theorem c7_registry_names_unique (ops : List RegistryOp) :
    registry_names_unique (registry_run ops) := by
  have base : registry_names_unique ([] : Registry) := by
    intro e he; exact absurd he (by simp)
  rw [registry_run]
  generalize hstart : ([] : Registry) = t0 at base
  clear hstart
  induction ops generalizing t0 with
  | nil => exact base
  | cons op rest ih =>
      rw [List.foldl_cons]
      exact ih _ (registry_apply_preserves_unique t0 op base)

/-- Witness for claim C7 on a concrete operation sequence (including a
rejected duplicate insert, a lookup and a removal). -/
theorem c7_witness : registry_names_unique (registry_run c7_ops) :=
  c7_registry_names_unique c7_ops

theorem lookup_iface_exact_hit (t : Registry) (p : List Char) (name : String)
    (l : List sbus_interface) (iface : sbus_interface)
    (h1 : hash_lookup t p = some l) (h2 : sbus_iface_list_lookup l name = some iface) :
    sbus_opath_hash_lookup_iface t p name = some iface := by
  simp only [sbus_opath_hash_lookup_iface, lookup_iface_loop, h1, h2]

theorem hash_lookup_enter_self (t : Registry) (k : List Char) (v : List sbus_interface) :
    hash_lookup (hash_enter t k v) k = some v := by
  induction t with
  | nil => simp [hash_enter, hash_lookup]
  | cons kv rest ih =>
      obtain ⟨k2, v2⟩ := kv
      simp only [hash_enter]
      by_cases hk : k2 = k
      · rw [if_pos hk]
        simp [hash_lookup, hk]
      · rw [if_neg hk]
        simp only [hash_lookup, if_neg hk]
        exact ih

theorem register_iface_fuel_known (st : ConnState) (vt : sbus_vtable) (p : List Char)
    (pvt : Nat) (l : List sbus_interface)
    (h : hash_lookup st.managed_paths p = some l) (f : Nat) :
    sbus_conn_register_iface_fuel (f + 1) st vt p pvt =
      sbus_conn_register_iface_fuel 1 st vt p pvt := by
  have key : ∀ g : Nat, sbus_conn_register_iface_fuel (g + 1) st vt p pvt =
      (match sbus_iface_list_lookup l vt.meta.name with
       | some _ => (Errno.EEXIST, st)
       | none => (Errno.EOK,
           { st with managed_paths := (hash_enter st.managed_paths p (l ++ [{ path := p, vtable := vt, instance_data := pvt }])) })) := by
    intro g
    simp only [sbus_conn_register_iface_fuel, sbus_opath_hash_add_iface, h]
    cases hf : sbus_iface_list_lookup l vt.meta.name with
    | some j => simp [hf]
    | none => simp [hf]
  rw [show f + 1 = f + 1 from rfl, key f, show (1:Nat) = 0 + 1 from rfl, key 0]

theorem register_iface_fuel_stable (n : Nat) (st : ConnState) (vt : sbus_vtable)
    (p : List Char) (pvt : Nat) :
    sbus_conn_register_iface_fuel (n + 2) st vt p pvt =
      sbus_conn_register_iface_fuel 2 st vt p pvt := by
  cases hl : hash_lookup st.managed_paths p with
  | some l =>
      rw [show n + 2 = (n + 1) + 1 from rfl,
          register_iface_fuel_known st vt p pvt l hl (n + 1),
          show (2:Nat) = 1 + 1 from rfl,
          register_iface_fuel_known st vt p pvt l hl 1]
  | none =>
      have hself := hash_lookup_enter_self st.managed_paths p
        [{ path := p, vtable := vt, instance_data := pvt }]
      rw [show n + 2 = (n + 1) + 1 from rfl, show (2:Nat) = 1 + 1 from rfl]
      cases hreg : sbus_conn_register_path
          { st with managed_paths := (hash_enter st.managed_paths p [{ path := p, vtable := vt, instance_data := pvt }]) } p with
      | mk ret2 dbus2 =>
          cases hfind : sbus_iface_list_lookup
              [{ path := p, vtable := vt, instance_data := pvt }]
              introspect_vtable.meta.name with
          | some j =>
              simp only [sbus_conn_register_iface_fuel, sbus_opath_hash_add_iface, hl,
                hreg, hself, hfind]
              by_cases hr2 : ret2 = Errno.EOK
              · simp [hr2]
              · simp [hr2]
          | none =>
              simp only [sbus_conn_register_iface_fuel, sbus_opath_hash_add_iface, hl,
                hreg, hself, hfind]
              by_cases hr2 : ret2 = Errno.EOK
              · simp [hr2]
              · simp [hr2]

/-- Claim C6: inserting an interface whose `meta.name` is already present
in the entry at the same path signals the duplicate error EEXIST (not
silent success); `sbus_conn_register_iface` returns that error with the
connection state (registry entry and transport registrations) unchanged,
and the first registration is still found by `lookup_iface`. -/
theorem c6_duplicate_registration :
    ∀ (st : ConnState) (vt : sbus_vtable) (p : List Char) (pvt : Nat)
      (l : List sbus_interface) (i0 : sbus_interface),
      hash_lookup st.managed_paths p = some l →
      sbus_iface_list_lookup l vt.meta.name = some i0 →
      sbus_conn_register_iface (some st) (some vt) (some p) pvt =
        (Errno.EEXIST, some st) ∧
      sbus_opath_hash_lookup_iface st.managed_paths p vt.meta.name = some i0 := by
  intro st vt p pvt l i0 h1 h2
  refine ⟨?_, lookup_iface_exact_hit st.managed_paths p vt.meta.name l i0 h1 h2⟩
  simp only [sbus_conn_register_iface]
  rw [show (2:Nat) = 1 + 1 from rfl]
  simp only [sbus_conn_register_iface_fuel, sbus_opath_hash_add_iface, h1, h2]
  simp

/-- Witness for claim C6: re-registering `c6_vt` at /c on the state left by
its first registration yields EEXIST and the unchanged state. -/
theorem c6_witness :
    sbus_conn_register_iface (some c6_st) (some c6_vt) (some ("/c".toList)) 5 =
      (Errno.EEXIST, some c6_st) ∧
    sbus_opath_hash_lookup_iface c6_st.managed_paths ("/c".toList) c6_vt.meta.name =
      some c6_iface :=
  c6_duplicate_registration c6_st c6_vt ("/c".toList) 5 [c6_iface] c6_iface
    (by decide) (by decide)

/-- Claim C10: `register_interface` called with a NULL connection, NULL
virtual table or NULL object path returns EINVAL and leaves the
connection state (registry and transport registrations) unchanged. -/
theorem c10_null_args_einval :
    ∀ (conn : Option ConnState) (vt : Option sbus_vtable)
      (path : Option (List Char)) (pvt : Nat),
      conn = none ∨ vt = none ∨ path = none →
      sbus_conn_register_iface conn vt path pvt = (Errno.EINVAL, conn) := by
  intro conn vt path pvt h
  cases conn <;> cases vt <;> cases path <;>
    first
      | rfl
      | (rcases h with h1 | h1 | h1 <;> exact absurd h1 (by simp))

/-- Witness for claim C10: a NULL connection with non-NULL vtable and path. -/
theorem c10_witness :
    sbus_conn_register_iface none (some { meta := { name := "X" } })
      (some ("/x".toList)) 0 = (Errno.EINVAL, none) :=
  c10_null_args_einval none (some { meta := { name := "X" } })
    (some ("/x".toList)) 0 (Or.inl rfl)

theorem wf_base_not_subtree (q : List Char) (h : wf_base q = true) :
    sbus_opath_is_subtree q = false := by
  cases hx : sbus_opath_is_subtree q
  · rfl
  exfalso
  obtain ⟨r, hr⟩ := (is_subtree_iff q).mp hx
  subst hr
  cases r with
  | nil => exact absurd h (by decide)
  | cons c rest =>
      rw [wf_base.eq_def] at h
      split at h
      next body heq =>
        have hc : c = '/' ∧ (rest ++ ['/', '*']) = body := by
          rw [List.cons_append] at heq
          exact ⟨by injection heq, by injection heq⟩
        obtain ⟨hc1, hc2⟩ := hc
        rw [← hc2] at h
        have hne : (rest ++ ['/', '*']).isEmpty = false := by
          cases rest <;> rfl
        rw [hne] at h
        simp only [Bool.false_or, Bool.and_eq_true] at h
        have hall := h.1.1.1
        have hmem : '*' ∈ rest ++ ['/', '*'] := by simp
        have := List.all_eq_true.mp hall '*' hmem
        exact absurd this (by decide)
      next heq => exact absurd h (by simp)

/-- Claim C8: for well-formed non-root paths, appending "/~*" to the base
path yields a subtree path, and `base_of` is idempotent; in the degenerate
case the base of "/~*" is the root "/". -/
theorem c8_base_subtree_roundtrip :
    ∀ p : List Char, sbus_opath_wellformed p = true → p ≠ ['/'] →
      (sbus_opath_is_subtree (sbus_opath_get_base_path p ++ ['/', '*']) = true ∧
       sbus_opath_get_base_path (sbus_opath_get_base_path p) =
         sbus_opath_get_base_path p) ∧
      sbus_opath_get_base_path ['/', '*'] = ['/'] := by
  intro p hwf hroot
  refine ⟨⟨is_subtree_append_marker _, ?_⟩, by decide⟩
  by_cases hsub : sbus_opath_is_subtree p = true
  · have hwb : wf_base (sbus_opath_get_base_path p) = true := by
      simp only [sbus_opath_wellformed, hsub, if_true] at hwf
      exact hwf
    exact base_path_not_subtree _ (wf_base_not_subtree _ hwb)
  · have hsf : sbus_opath_is_subtree p = false := by
      cases hy : sbus_opath_is_subtree p
      · rfl
      · exact absurd hy hsub
    rw [base_path_not_subtree p hsf]
    exact base_path_not_subtree p hsf

/-- Witness for claim C8 at the well-formed non-root paths /org/a and
/org/a/~*. -/
theorem c8_witness :
    (sbus_opath_wellformed ("/org/a".toList) = true ∧
     sbus_opath_is_subtree (sbus_opath_get_base_path ("/org/a".toList) ++ ['/', '*']) = true ∧
     sbus_opath_get_base_path (sbus_opath_get_base_path ("/org/a".toList)) =
       sbus_opath_get_base_path ("/org/a".toList)) ∧
    (sbus_opath_wellformed ("/org/a/*".toList) = true ∧
     sbus_opath_get_base_path (sbus_opath_get_base_path ("/org/a/*".toList)) =
       sbus_opath_get_base_path ("/org/a/*".toList)) := by
  have h1 := c8_base_subtree_roundtrip ("/org/a".toList) (by decide) (by decide)
  have h2 := c8_base_subtree_roundtrip ("/org/a/*".toList) (by decide) (by decide)
  exact ⟨⟨by decide, h1.1.1, h1.1.2⟩, ⟨by decide, h2.1.2⟩⟩

/-- Claim C2 exhibit: the Not-Found and Failed mappings hold, but on a
path-composition failure (store succeeds, message carries no uidNumber)
both continuations call the typed `_finish` with a NULL object path
instead of failing the request with the Internal error they construct. -/
theorem c2_path_composition_bug :
    ifp_users_find_by_name_done Errno.EOK [c2_msg_no_uid] "dom" =
      IfpUserReply.finish none ∧
    ifp_users_find_by_id_done Errno.EOK [c2_msg_no_uid] "dom" =
      IfpUserReply.finish none ∧
    ifp_users_find_by_name_done Errno.ENOENT [] "dom" =
      IfpUserReply.fail_and_finish
        { name := SBUS_ERROR_NOT_FOUND, message := "User not found" } ∧
    ifp_users_find_by_id_done Errno.EIO [] "dom" =
      IfpUserReply.fail_and_finish
        { name := DBUS_ERROR_FAILED, message := "Failed to fetch user" } := by
  decide

/-- Counterexample for claim C3 as stated: in `c3_world` the predicate
denies every attribute, yet the extraAttributes getter returns a non-empty
table — it never consults `ifp_is_user_attr_allowed`. -/
theorem c3_extra_attributes_counterexample :
    ifp_users_user_get_extra_attributes c3_world = some [("phone", ["123"])] ∧
    (∀ a : String, c3_world.allowed a = false) := by
  refine ⟨by decide, ?_⟩
  intro a
  rfl

/-- Claim C3 (amended): the name, uidNumber, gidNumber, gecos,
homeDirectory, loginShell and groups getters consult the access-control
predicate first and return the empty value when denied; the
extraAttributes getter does not consult the predicate at all (its result
is invariant under any change of the predicate) and is instead restricted
to the configured extra-attribute list. -/
theorem c3_getters_allowed_amended :
    ∀ (w : ifp_user_world) (f : String → Bool),
      (w.allowed SYSDB_NAME = false → ifp_users_user_get_name w = none) ∧
      (w.allowed SYSDB_UIDNUM = false → ifp_users_user_get_uid_number w = 0) ∧
      (w.allowed SYSDB_GIDNUM = false → ifp_users_user_get_gid_number w = 0) ∧
      (w.allowed SYSDB_GECOS = false → ifp_users_user_get_gecos w = none) ∧
      (w.allowed SYSDB_HOMEDIR = false → ifp_users_user_get_home_directory w = none) ∧
      (w.allowed SYSDB_SHELL = false → ifp_users_user_get_login_shell w = none) ∧
      (w.allowed "groups" = false → ifp_users_user_get_groups w = (none, 0)) ∧
      ifp_users_user_get_extra_attributes { w with allowed := f } =
        ifp_users_user_get_extra_attributes w := by
  intro w f
  refine ⟨?_, ?_, ?_, ?_, ?_, ?_, ?_, ?_⟩
  · intro h; simp [ifp_users_user_get_name, ifp_users_get_as_string, h]
  · intro h; simp [ifp_users_user_get_uid_number, ifp_users_get_as_uint32, h]
  · intro h; simp [ifp_users_user_get_gid_number, ifp_users_get_as_uint32, h]
  · intro h; simp [ifp_users_user_get_gecos, ifp_users_get_as_string, h]
  · intro h; simp [ifp_users_user_get_home_directory, ifp_users_get_as_string, h]
  · intro h; simp [ifp_users_user_get_login_shell, ifp_users_get_as_string, h]
  · intro h; simp [ifp_users_user_get_groups, h]
  · simp [ifp_users_user_get_extra_attributes]

/-- Witness for the amended claim C3 on the all-denying world `c3_world`. -/
theorem c3_witness :
    ifp_users_user_get_name c3_world = none ∧
    ifp_users_user_get_uid_number c3_world = 0 ∧
    ifp_users_user_get_gid_number c3_world = 0 ∧
    ifp_users_user_get_gecos c3_world = none ∧
    ifp_users_user_get_home_directory c3_world = none ∧
    ifp_users_user_get_login_shell c3_world = none ∧
    ifp_users_user_get_groups c3_world = (none, 0) ∧
    ifp_users_user_get_extra_attributes { c3_world with allowed := fun _ => true } =
      ifp_users_user_get_extra_attributes c3_world := by
  have h := c3_getters_allowed_amended c3_world (fun _ => true)
  exact ⟨h.1 rfl, h.2.1 rfl, h.2.2.1 rfl, h.2.2.2.1 rfl, h.2.2.2.2.1 rfl,
    h.2.2.2.2.2.1 rfl, h.2.2.2.2.2.2.1 rfl, h.2.2.2.2.2.2.2⟩

/-- Claim C4 exhibit: with an initgroups result [gid 0, gid 5] the getter
reports size 1 but stores the single group path at the original result
index 1, leaving the reported array prefix with a NULL entry (the claimed
compact array of non-zero-GID group paths would be [path-of-5]). -/
theorem c4_groups_index_bug :
    ifp_users_user_get_groups c4_world =
      (some [none, some ("/org/freedesktop/sssd/infopipe/Groups/dom/5".toList)], 1) ∧
    ((ifp_users_user_get_groups c4_world).1.getD []).take 1 = [none] := by
  decide
